import Mathlib

/-!
# Verification of the `witness` snapshot-and-diff engine

Shallow embedding of the core of the `witness` repository:

* `witness.py`: `scan_directory`, `compare_states`, `save_scan`,
  `load_previous_scan`, `witness_loop`;
* `diff_witness.py`: `diff_states`, `save_state`, `load_state`.

Conventions of the embedding:

* A scan state (Python dict `relative path -> {mtime, size, hash}`) is an
  association list `List (String × FileRecord)`; Python dict keys are unique,
  and lookup takes the first matching key.
* `st_mtime` is a Python float, i.e. a dyadic rational; we embed timestamps
  into `ℚ`.  `st_size` is a nonnegative int, embedded as `ℕ`.  `hash_file`
  returns either a hex string or Python `None` (unreadable file), embedded as
  `Option String` with `none` as the unreadable sentinel.
* JSON persistence is modelled at the level of the JSON value tree: Python's
  `json.dumps`/`json.loads` round-trips every value tree built from strings,
  ints, floats, `None` and dicts (floats serialize via `repr`, which
  round-trips exactly), so a stored file is modelled by the JSON tree it
  parses to.  JSON distinguishes ints from floats, hence two numeric
  constructors.
-/

namespace Witness

/-- The change kinds emitted by `compare_states` in `witness.py`
(the strings `"created"`, `"deleted"`, `"modified"`). -/
inductive Kind where
  | created
  | deleted
  | modified
deriving DecidableEq, Repr

/-- One per-file record as built by `scan_directory` in `witness.py`:
`{'mtime': item.stat().st_mtime, 'size': item.stat().st_size, 'hash': hash_file(item)}`.
`hash = none` is the unreadable sentinel (`hash_file` returned `None`). -/
structure FileRecord where
  mtime : ℚ
  size : ℕ
  hash : Option String
deriving DecidableEq, Repr

/-- A scan state: the Python dict mapping relative path to `FileRecord`. -/
abbrev State := List (String × FileRecord)

/-- Dict lookup on an association list (first match wins; Python dict keys
are unique, so on states coming from a scan this is exact dict indexing). -/
def findRec (s : State) (p : String) : Option FileRecord :=
  match s with
  | [] => none
  | (q, r) :: rest => if q = p then some r else findRec rest p

/-- The key set of a state (`set(state.keys())`). -/
def keySet (s : State) : Finset String :=
  (s.map Prod.fst).toFinset

/-- The classification performed by the body of the `for` loop in
`compare_states` (`witness.py` lines 201–207) for one path of the union:
`created` if absent in `before`, else `deleted` if absent in `after`,
else `modified` if the two `hash` fields differ, else no entry. -/
def classify (before after : State) (p : String) : Option Kind :=
  if p ∉ keySet before then some .created
  else if p ∉ keySet after then some .deleted
  else if (findRec before p).map FileRecord.hash ≠ (findRec after p).map FileRecord.hash then
    some .modified
  else none

/-- `sorted(all_files)` where `all_files = set(before.keys()) | set(after.keys())`
(`witness.py` lines 199–201): the keys of both dicts, without duplicates,
in ascending lexicographic string order. -/
def sortedUnionKeys (before after : State) : List String :=
  (keySet before ∪ keySet after).sort (· ≤ ·)

/-- `compare_states(before, after)` from `witness.py`: iterate over
`sorted(set(before) | set(after))` and collect `(kind, path)` tuples. -/
def compare_states (before after : State) : List (Kind × String) :=
  (sortedUnionKeys before after).filterMap fun p =>
    (classify before after p).map fun k => (k, p)

/-- The saved-state payload written by `save_state` in `diff_witness.py`:
`{"name": ..., "timestamp": ..., "path": ..., "state": ...}`. -/
structure SavedData where
  name : String
  timestamp : String
  path : String
  state : State
deriving DecidableEq, Repr

/-- The result of `diff_states` in `diff_witness.py` (the classification
part of the returned dict; `created`/`deleted` come from Python set
difference, `modified` from a filter over the intersection, and the lists'
iteration order is unspecified, hence `Finset`s). -/
structure DiffResult where
  created : Finset String
  deleted : Finset String
  modified : Finset String
  unchanged : ℕ
deriving DecidableEq

/-- `diff_states(state1, state2)` from `diff_witness.py` lines 91–123.
Note that `modified` is decided by `s1[f] != s2[f]`, i.e. inequality of the
whole per-file record (mtime, size and hash), not of the hash alone. -/
def diff_states (d1 d2 : SavedData) : DiffResult :=
  let s1 := d1.state
  let s2 := d2.state
  let files1 := keySet s1
  let files2 := keySet s2
  let created := files2 \ files1
  let deleted := files1 \ files2
  let common := files1 ∩ files2
  let modified := common.filter fun f => findRec s1 f ≠ findRec s2 f
  { created := created
    deleted := deleted
    modified := modified
    unchanged := common.card - modified.card }

/-- JSON value trees, as produced by `json.loads` / consumed by
`json.dumps`.  Python's `json` keeps ints and floats distinct, so there is
one constructor for each; `fnum` carries the (dyadic rational) float value,
which `json.dumps`'s `repr`-based float formatting round-trips exactly. -/
inductive Json where
  | null
  | str (s : String)
  | inum (n : ℤ)
  | fnum (q : ℚ)
  | obj (fields : List (String × Json))

/-- JSON encoding of a `hash` field: `None` becomes JSON `null`,
a digest string stays a string. -/
def encodeHash : Option String → Json
  | none => .null
  | some h => .str h

/-- JSON encoding of one per-file record, as `save_state`/`save_scan`
serialize it: `{"mtime": float, "size": int, "hash": str | null}`. -/
def encodeRecord (r : FileRecord) : Json :=
  .obj [("mtime", .fnum r.mtime), ("size", .inum (r.size : ℤ)), ("hash", encodeHash r.hash)]

/-- JSON encoding of a whole scan state (a JSON object keyed by path). -/
def encodeState (s : State) : Json :=
  .obj (s.map fun pr => (pr.1, encodeRecord pr.2))

/-- Reading a `hash` field back from JSON. -/
def decodeHash : Json → Option (Option String)
  | .null => some none
  | .str h => some (some h)
  | _ => none

/-- Reading one per-file record back from its JSON encoding. -/
def decodeRecord : Json → Option FileRecord
  | .obj [("mtime", .fnum q), ("size", .inum (.ofNat n)), ("hash", h)] =>
    (decodeHash h).map fun hv => ⟨q, n, hv⟩
  | _ => none

/-- Reading the entries of a JSON-encoded scan state back. -/
def decodeEntries : List (String × Json) → Option State
  | [] => some []
  | (p, j) :: rest =>
    match decodeRecord j, decodeEntries rest with
    | some r, some st => some ((p, r) :: st)
    | _, _ => none

/-- Reading a whole scan state back from JSON. -/
def decodeState : Json → Option State
  | .obj fields => decodeEntries fields
  | _ => none

/-- JSON encoding of the payload `save_state` writes to
`~/.witness-cache/<name>.json` (`diff_witness.py` lines 47–55). -/
def encodeSavedData (d : SavedData) : Json :=
  .obj [("name", .str d.name), ("timestamp", .str d.timestamp),
        ("path", .str d.path), ("state", encodeState d.state)]

/-- Reading a saved payload back from its JSON tree. -/
def decodeSavedData : Json → Option SavedData
  | .obj [("name", .str n), ("timestamp", .str t), ("path", .str p), ("state", js)] =>
    (decodeState js).map fun st => ⟨n, t, p, st⟩
  | _ => none

/-- The `~/.witness-cache` directory: for each name, the JSON tree the file
`<name>.json` parses to (`none` when the file is absent or malformed). -/
def Store := String → Option Json

/-- `save_state(name, state, path)` from `diff_witness.py`: overwrite the
file `<name>.json` with the JSON serialization of the payload; all other
names are untouched. -/
def save_state (store : Store) (name : String) (d : SavedData) : Store :=
  fun n => if n = name then some (encodeSavedData d) else store n

/-- `load_state(name)` from `diff_witness.py`: the parsed JSON content of
`<name>.json`, or `None` when absent or unreadable. -/
def load_state (store : Store) (name : String) : Option Json :=
  store name

/-- The payload `save_scan` writes to the single global file
`~/.witness_last_scan.json` (`witness.py` lines 212–219). -/
structure ScanData where
  path : String
  timestamp : String
  state : State
deriving DecidableEq, Repr

/-- JSON encoding of the `save_scan` payload
`{"path": ..., "timestamp": ..., "state": ...}`. -/
def encodeScanData (d : ScanData) : Json :=
  .obj [("path", .str d.path), ("timestamp", .str d.timestamp),
        ("state", encodeState d.state)]

/-- Reading a `save_scan` payload back from its JSON tree. -/
def decodeScanData : Json → Option ScanData
  | .obj [("path", .str p), ("timestamp", .str t), ("state", js)] =>
    (decodeState js).map fun st => ⟨p, t, st⟩
  | _ => none

/-- The single global state file `WITNESS_STATE_FILE` of `witness.py`:
the JSON tree it currently parses to, or `none` when absent/malformed.
There is one such slot for the whole program, not one per path. -/
def WitnessStore := Option Json

/-- `save_scan(path, state)` from `witness.py`: unconditionally overwrite
the one global file, whatever path it previously described.
(`datetime.now().isoformat()` is passed in as `ts`.) -/
def save_scan (_store : WitnessStore) (path ts : String) (st : State) : WitnessStore :=
  some (encodeScanData ⟨path, ts, st⟩)

/-- `load_previous_scan(path)` from `witness.py`: read the one global file;
return its payload only when its recorded `"path"` equals the requested
path, else `None`. -/
def load_previous_scan (store : WitnessStore) (path : String) : Option ScanData :=
  match store with
  | none => none
  | some j =>
    match decodeScanData j with
    | none => none
    | some d => if d.path = path then some d else none

/-- Python exceptions relevant to the scan/poll loop: `KeyboardInterrupt`
(the stop request) and an unexpected `OSError` (e.g. `item.stat()` on a file
that vanished between directory enumeration and the stat call —
`witness.py` line 180 performs the stat outside any `try`). -/
inductive PyExc where
  | keyboardInterrupt
  | osError
deriving DecidableEq, Repr

/-- One regular file as the filesystem presents it to `scan_directory`.
`relParts` are the components of its path relative to the scan root (the
Python dict key is these components joined with `/`; components never
contain `/`, so the joined string determines them).  `hashResult` is what
`hash_file` returns for it: `none` when the file is unreadable (`hash_file`
swallows `IOError`/`OSError` and returns `None`).  `vanished` marks a file
that disappears between enumeration and `item.stat()`, making the stat
raise `OSError`. -/
structure FSFile where
  relParts : List String
  mtime : ℚ
  size : ℕ
  hashResult : Option String
  vanished : Bool
deriving DecidableEq, Repr

/-- The per-file record `scan_directory` stores for an included file. -/
def fsRecord (f : FSFile) : FileRecord :=
  ⟨f.mtime, f.size, f.hashResult⟩

/-- The files enumerated by the scan: `path.rglob('*')` yields every file
of the subtree, `path.glob('*')` (non-recursive mode) only direct children,
i.e. files whose relative path has a single component.  (Directories are
discarded by the `item.is_file()` test, so `fs` lists only regular files.) -/
def enumItems (fs : List FSFile) (recursive : Bool) : List FSFile :=
  if recursive then fs else fs.filter fun f => f.relParts.length = 1

/-- `part.startswith('.')` for a single path component: its first
character is a dot (an empty component starts with nothing). -/
def startsWithDot (c : String) : Bool :=
  match c.data with
  | [] => false
  | ch :: _ => ch = '.'

/-- The hidden-path test of `witness.py` line 170:
`any(part.startswith('.') for part in item.parts)`.  `item.parts` is the
FULL path of the file — the components of the scan root followed by the
components of the relative path. -/
def hiddenHit (rootParts : List String) (f : FSFile) : Bool :=
  (rootParts ++ f.relParts).any startsWithDot

/-- The depth test of `witness.py` lines 174–177: with `max_depth = some d`,
skip the file when `len(item.relative_to(path).parts) > d`. -/
def depthExceeded (md : Option ℕ) (f : FSFile) : Bool :=
  match md with
  | none => false
  | some d => decide (d < f.relParts.length)

/-- The body of the scan loop (`witness.py` lines 165–183) over the
enumerated files: skip hidden paths, then skip too-deep paths, then stat —
which raises `OSError` for a vanished file, aborting the whole scan — and
record `{mtime, size, hash}` under the relative path.  The state is keyed
by the relative-path component list (see `FSFile.relParts`). -/
def scanItems (rootParts : List String) (md : Option ℕ) :
    List FSFile → Except PyExc (List (List String × FileRecord))
  | [] => .ok []
  | f :: rest =>
    if hiddenHit rootParts f then scanItems rootParts md rest
    else if depthExceeded md f then scanItems rootParts md rest
    else if f.vanished then .error .osError
    else
      match scanItems rootParts md rest with
      | .ok st => .ok ((f.relParts, fsRecord f) :: st)
      | .error e => .error e

/-- `scan_directory(path, recursive, max_depth)` from `witness.py`:
empty state when the root does not exist, otherwise the loop over the
enumerated items.  A raised `OSError` propagates to the caller. -/
def scan_directory (rootParts : List String) (rootExists : Bool) (fs : List FSFile)
    (recursive : Bool) (md : Option ℕ) : Except PyExc (List (List String × FileRecord)) :=
  if rootExists then scanItems rootParts md (enumItems fs recursive) else .ok []

/-- How one iteration of `witness_loop` (`witness.py` lines 361–378) ends,
as a function of how the scan inside it ends. -/
inductive LoopStep where
  | continuePolling (newState : List (List String × FileRecord))
  | cleanExit
  | crashed
deriving DecidableEq, Repr

/-- The exception structure of `witness_loop`: the whole `while True` body
sits in a `try` whose only handler is `except KeyboardInterrupt`.  A
successful scan advances the loop; a `KeyboardInterrupt` is caught and ends
the loop cleanly; any other exception raised by the scan propagates out of
the function, terminating the loop. -/
def witness_loop_tick (scanResult : Except PyExc (List (List String × FileRecord))) :
    LoopStep :=
  match scanResult with
  | .ok st => .continuePolling st
  | .error .keyboardInterrupt => .cleanExit
  | .error .osError => .crashed

/-- The paths of the key union that `compare_states` counts as unchanged:
present in both states with equal digests, so the loop emits no entry. -/
def unchangedPaths (before after : State) : Finset String :=
  (keySet before ∪ keySet after).filter fun p => classify before after p = none

/-- The possible concrete outputs of `diff_states`: the `created`, `deleted`
and `modified` values of the returned dict are lists built by iterating
Python sets (`list(created)`, `list(deleted)`, and a loop over `common`),
whose iteration order is unspecified; an admissible output is any
duplicate-free enumeration of each of the three sets. -/
def DiffListsAdmissible (d1 d2 : SavedData) (cr del mo : List String) : Prop :=
  cr.Nodup ∧ del.Nodup ∧ mo.Nodup ∧
  cr.toFinset = (diff_states d1 d2).created ∧
  del.toFinset = (diff_states d1 d2).deleted ∧
  mo.toFinset = (diff_states d1 d2).modified

/-!
## Helper lemmas
-/

theorem mem_keySet_iff_findRec {s : State} {p : String} :
    p ∈ keySet s ↔ (findRec s p).isSome = true := by
  induction s with
  | nil => simp [keySet, findRec]
  | cons hd tl ih =>
    obtain ⟨q, r⟩ := hd
    by_cases hqp : q = p
    · subst hqp; simp [keySet, findRec]
    · simp only [keySet, List.map_cons, List.toFinset_cons, Finset.mem_insert] at *
      simp [findRec, hqp, ih, Ne.symm hqp]

theorem mem_keySet_of_findRec {s : State} {p : String} {r : FileRecord}
    (h : findRec s p = some r) : p ∈ keySet s := by
  rw [mem_keySet_iff_findRec, h]; rfl

theorem findRec_eq_none_of_not_mem {s : State} {p : String} (h : p ∉ keySet s) :
    findRec s p = none := by
  cases hf : findRec s p with
  | none => rfl
  | some r => exact absurd (mem_keySet_of_findRec hf) h

theorem diff_states_created (d1 d2 : SavedData) :
    (diff_states d1 d2).created = keySet d2.state \ keySet d1.state := rfl

theorem diff_states_deleted (d1 d2 : SavedData) :
    (diff_states d1 d2).deleted = keySet d1.state \ keySet d2.state := rfl

theorem diff_states_modified (d1 d2 : SavedData) :
    (diff_states d1 d2).modified =
      (keySet d1.state ∩ keySet d2.state).filter
        (fun f => findRec d1.state f ≠ findRec d2.state f) := rfl

theorem diff_states_unchanged (d1 d2 : SavedData) :
    (diff_states d1 d2).unchanged =
      (keySet d1.state ∩ keySet d2.state).card - (diff_states d1 d2).modified.card := rfl

theorem mem_sortedUnionKeys {b a : State} {p : String} :
    p ∈ sortedUnionKeys b a ↔ p ∈ keySet b ∪ keySet a := by
  simp [sortedUnionKeys, Finset.mem_sort]

theorem mem_compare_states {b a : State} {k : Kind} {p : String} :
    (k, p) ∈ compare_states b a ↔
      p ∈ keySet b ∪ keySet a ∧ classify b a p = some k := by
  simp only [compare_states, List.mem_filterMap, Option.map_eq_some']
  constructor
  · rintro ⟨q, hq, k2, hk2, hpair⟩
    have hk : k2 = k := congrArg Prod.fst hpair
    have hp : q = p := congrArg Prod.snd hpair
    subst hk; subst hp
    exact ⟨mem_sortedUnionKeys.mp hq, hk2⟩
  · rintro ⟨hmem, hcl⟩
    exact ⟨p, mem_sortedUnionKeys.mpr hmem, k, hcl, rfl⟩

theorem classify_created_iff {b a : State} {p : String} :
    classify b a p = some Kind.created ↔ p ∉ keySet b := by
  unfold classify
  split_ifs with h1 h2 h3 <;> simp [h1]

theorem classify_deleted_iff {b a : State} {p : String} :
    classify b a p = some Kind.deleted ↔ p ∈ keySet b ∧ p ∉ keySet a := by
  unfold classify
  split_ifs with h1 h2 h3 <;> simp_all

theorem classify_modified_iff {b a : State} {p : String} :
    classify b a p = some Kind.modified ↔
      p ∈ keySet b ∧ p ∈ keySet a ∧
        (findRec b p).map FileRecord.hash ≠ (findRec a p).map FileRecord.hash := by
  unfold classify
  split_ifs with h1 h2 h3 <;> simp_all

theorem classify_none_iff {b a : State} {p : String} :
    classify b a p = none ↔
      p ∈ keySet b ∧ p ∈ keySet a ∧
        (findRec b p).map FileRecord.hash = (findRec a p).map FileRecord.hash := by
  unfold classify
  split_ifs with h1 h2 h3 <;> simp_all

theorem compare_created_iff {b a : State} {p : String} :
    (Kind.created, p) ∈ compare_states b a ↔ p ∉ keySet b ∧ p ∈ keySet a := by
  rw [mem_compare_states, classify_created_iff]
  constructor
  · rintro ⟨hm, hb⟩
    rcases Finset.mem_union.mp hm with h | h
    · exact absurd h hb
    · exact ⟨hb, h⟩
  · rintro ⟨hb, ha⟩
    exact ⟨Finset.mem_union_right _ ha, hb⟩

theorem compare_deleted_iff {b a : State} {p : String} :
    (Kind.deleted, p) ∈ compare_states b a ↔ p ∈ keySet b ∧ p ∉ keySet a := by
  rw [mem_compare_states, classify_deleted_iff]
  constructor
  · rintro ⟨hm, hb, ha⟩
    exact ⟨hb, ha⟩
  · rintro ⟨hb, ha⟩
    exact ⟨Finset.mem_union_left _ hb, hb, ha⟩

theorem compare_modified_iff {b a : State} {p : String} :
    (Kind.modified, p) ∈ compare_states b a ↔
      p ∈ keySet b ∧ p ∈ keySet a ∧
        (findRec b p).map FileRecord.hash ≠ (findRec a p).map FileRecord.hash := by
  rw [mem_compare_states, classify_modified_iff]
  constructor
  · rintro ⟨hm, h⟩
    exact h
  · rintro ⟨hb, ha, hh⟩
    exact ⟨Finset.mem_union_left _ hb, hb, ha, hh⟩

theorem compare_unchanged_not_mem {b a : State} {p : String}
    (hb : p ∈ keySet b) (ha : p ∈ keySet a)
    (hh : (findRec b p).map FileRecord.hash = (findRec a p).map FileRecord.hash)
    (k : Kind) : (k, p) ∉ compare_states b a := by
  intro hmem
  have hcl := (mem_compare_states.mp hmem).2
  have hnone : classify b a p = none := classify_none_iff.mpr ⟨hb, ha, hh⟩
  rw [hnone] at hcl
  exact Option.noConfusion hcl

theorem diff_created_mem_iff {d1 d2 : SavedData} {p : String} :
    p ∈ (diff_states d1 d2).created ↔ p ∉ keySet d1.state ∧ p ∈ keySet d2.state := by
  rw [diff_states_created, Finset.mem_sdiff]
  exact and_comm

theorem diff_deleted_mem_iff {d1 d2 : SavedData} {p : String} :
    p ∈ (diff_states d1 d2).deleted ↔ p ∈ keySet d1.state ∧ p ∉ keySet d2.state := by
  rw [diff_states_deleted, Finset.mem_sdiff]

theorem diff_modified_mem_iff {d1 d2 : SavedData} {p : String} :
    p ∈ (diff_states d1 d2).modified ↔
      p ∈ keySet d1.state ∧ p ∈ keySet d2.state ∧
        findRec d1.state p ≠ findRec d2.state p := by
  rw [diff_states_modified, Finset.mem_filter, Finset.mem_inter, and_assoc]

theorem length_filterMap_add {α β : Type} (l : List α) (g : α → Option β) :
    (l.filterMap g).length + (l.filter fun x => (g x).isNone).length = l.length := by
  induction l with
  | nil => simp
  | cons x xs ih =>
    cases hx : g x <;>
      simp only [List.filterMap_cons, List.filter_cons, hx, Option.isNone_none,
        Option.isNone_some, if_pos, if_neg, List.length_cons, Bool.false_eq_true,
        ite_true, ite_false] <;> omega

theorem map_snd_filterMap (g : String → Option Kind) (l : List String) :
    (l.filterMap fun p => (g p).map fun k => (k, p)).map Prod.snd
      = l.filter fun p => (g p).isSome := by
  induction l with
  | nil => simp
  | cons x xs ih =>
    cases hx : g x <;>
      simp [List.filterMap_cons, List.filter_cons, hx, ih]

theorem filter_sort_length (u : Finset String) (q : String → Bool) :
    ((u.sort (· ≤ ·)).filter q).length = (u.filter fun x => q x = true).card := by
  have hperm : List.Perm ((u.sort (· ≤ ·)).filter q) (u.toList.filter q) :=
    (Finset.sort_perm_toList (· ≤ ·) u).filter q
  rw [hperm.length_eq]
  have hval : (u.filter fun x => q x = true).val = Multiset.filter (fun x => q x = true) u.val :=
    rfl
  have hcoe : u.val = (u.toList : Multiset String) := (Multiset.coe_toList u.val).symm
  have : (u.filter fun x => q x = true).card
      = (u.toList.filter fun x => decide (q x = true)).length := by
    rw [Finset.card_def, hval, hcoe, Multiset.filter_coe, Multiset.coe_card]
  rw [this]
  congr 1
  apply List.filter_congr
  intro x _
  simp

theorem compare_states_length (b a : State) :
    (compare_states b a).length + (unchangedPaths b a).card = (keySet b ∪ keySet a).card := by
  have h := length_filterMap_add (sortedUnionKeys b a)
    (fun p => (classify b a p).map fun k => (k, p))
  have hfil : ((sortedUnionKeys b a).filter fun x => ((classify b a x).map fun k => (k, x)).isNone)
      = (sortedUnionKeys b a).filter fun x => (classify b a x).isNone :=
    List.filter_congr fun x _ => by cases classify b a x <;> simp
  have hfl : ((sortedUnionKeys b a).filter fun x => (classify b a x).isNone).length
      = (unchangedPaths b a).card := by
    simp only [sortedUnionKeys]
    rw [filter_sort_length]
    unfold unchangedPaths
    congr 1
    apply Finset.filter_congr
    intro x _
    simp [Option.isNone_iff_eq_none]
  have hlen : (sortedUnionKeys b a).length = (keySet b ∪ keySet a).card := by
    simp only [sortedUnionKeys]
    exact Finset.length_sort _
  rw [hfil, hfl, hlen] at h
  exact h

theorem compare_states_pairwise (b a : State) :
    (compare_states b a).Pairwise fun x y => x.2 < y.2 := by
  have hsl : (sortedUnionKeys b a).Sorted (· < ·) := by
    simp only [sortedUnionKeys]
    exact Finset.sort_sorted_lt _
  have hsnd : (compare_states b a).map Prod.snd
      = (sortedUnionKeys b a).filter fun p => (classify b a p).isSome :=
    map_snd_filterMap _ _
  have hpw : ((compare_states b a).map Prod.snd).Pairwise (· < ·) := by
    rw [hsnd]
    exact hsl.sublist (List.filter_sublist _)
  exact List.pairwise_map.mp hpw

theorem compare_states_snds_nodup (b a : State) :
    ((compare_states b a).map Prod.snd).Nodup := by
  simp only [compare_states]
  rw [map_snd_filterMap]
  simp only [sortedUnionKeys]
  exact (Finset.sort_nodup _ _).filter _

theorem diff_modified_subset (d1 d2 : SavedData) :
    (diff_states d1 d2).modified ⊆ keySet d1.state ∩ keySet d2.state := by
  rw [diff_states_modified]
  exact Finset.filter_subset _ _

theorem diff_states_unchanged_card (d1 d2 : SavedData) :
    (diff_states d1 d2).unchanged
      = ((keySet d1.state ∩ keySet d2.state) \ (diff_states d1 d2).modified).card := by
  rw [diff_states_unchanged, Finset.card_sdiff (diff_modified_subset d1 d2)]

theorem diff_states_cover (d1 d2 : SavedData) :
    (diff_states d1 d2).created ∪ (diff_states d1 d2).deleted ∪ (diff_states d1 d2).modified
        ∪ ((keySet d1.state ∩ keySet d2.state) \ (diff_states d1 d2).modified)
      = keySet d1.state ∪ keySet d2.state := by
  ext p
  simp only [diff_states_created, diff_states_deleted, diff_states_modified,
    Finset.mem_union, Finset.mem_sdiff, Finset.mem_inter, Finset.mem_filter]
  by_cases h1 : p ∈ keySet d1.state <;> by_cases h2 : p ∈ keySet d2.state <;>
    by_cases h3 : findRec d1.state p = findRec d2.state p <;> simp [h1, h2, h3]

theorem diff_states_disjoint_cd (d1 d2 : SavedData) :
    Disjoint (diff_states d1 d2).created (diff_states d1 d2).deleted := by
  rw [Finset.disjoint_left]
  intro p hc hd
  exact (diff_created_mem_iff.mp hc).1 (diff_deleted_mem_iff.mp hd).1

theorem diff_states_disjoint_cm (d1 d2 : SavedData) :
    Disjoint (diff_states d1 d2).created (diff_states d1 d2).modified := by
  rw [Finset.disjoint_left]
  intro p hc hm
  exact (diff_created_mem_iff.mp hc).1 (diff_modified_mem_iff.mp hm).1

theorem diff_states_disjoint_dm (d1 d2 : SavedData) :
    Disjoint (diff_states d1 d2).deleted (diff_states d1 d2).modified := by
  rw [Finset.disjoint_left]
  intro p hd hm
  exact (diff_deleted_mem_iff.mp hd).2 (diff_modified_mem_iff.mp hm).2.1

theorem diff_states_count (d1 d2 : SavedData) :
    (diff_states d1 d2).unchanged + (diff_states d1 d2).modified.card
        + (diff_states d1 d2).created.card + (diff_states d1 d2).deleted.card
      = (keySet d1.state ∪ keySet d2.state).card := by
  have hm : (diff_states d1 d2).modified.card ≤ (keySet d1.state ∩ keySet d2.state).card :=
    Finset.card_le_card (diff_modified_subset d1 d2)
  have hu : (diff_states d1 d2).unchanged + (diff_states d1 d2).modified.card
      = (keySet d1.state ∩ keySet d2.state).card := by
    rw [diff_states_unchanged]
    omega
  have h1 : (keySet d1.state ∪ keySet d2.state).card + (keySet d1.state ∩ keySet d2.state).card
      = (keySet d1.state).card + (keySet d2.state).card :=
    Finset.card_union_add_card_inter _ _
  have h2 : (keySet d1.state \ keySet d2.state).card + (keySet d1.state ∩ keySet d2.state).card
      = (keySet d1.state).card :=
    Finset.card_sdiff_add_card_inter _ _
  have h3 : (keySet d2.state \ keySet d1.state).card + (keySet d2.state ∩ keySet d1.state).card
      = (keySet d2.state).card :=
    Finset.card_sdiff_add_card_inter _ _
  have hcomm : (keySet d2.state ∩ keySet d1.state).card
      = (keySet d1.state ∩ keySet d2.state).card := by rw [Finset.inter_comm]
  rw [diff_states_created, diff_states_deleted]
  omega

theorem decodeHash_encodeHash (h : Option String) : decodeHash (encodeHash h) = some h := by
  cases h <;> rfl

theorem decodeRecord_encodeRecord (r : FileRecord) : decodeRecord (encodeRecord r) = some r := by
  obtain ⟨m, n, h⟩ := r
  cases h <;> rfl

theorem decodeEntries_encode (s : State) :
    decodeEntries (s.map fun pr => (pr.1, encodeRecord pr.2)) = some s := by
  induction s with
  | nil => rfl
  | cons hd tl ih =>
    obtain ⟨p, r⟩ := hd
    simp [decodeEntries, decodeRecord_encodeRecord, ih]

theorem decodeState_encodeState (s : State) : decodeState (encodeState s) = some s := by
  simp only [encodeState, decodeState]
  exact decodeEntries_encode s

theorem decodeSavedData_encodeSavedData (d : SavedData) :
    decodeSavedData (encodeSavedData d) = some d := by
  obtain ⟨n, t, p, st⟩ := d
  simp [encodeSavedData, decodeSavedData, decodeState_encodeState]

theorem decodeScanData_encodeScanData (d : ScanData) :
    decodeScanData (encodeScanData d) = some d := by
  obtain ⟨p, t, st⟩ := d
  simp [encodeScanData, decodeScanData, decodeState_encodeState]

theorem scanItems_mem_ok {rp : List String} {md : Option ℕ} :
    ∀ {l : List FSFile} {st : List (List String × FileRecord)} {ps : List String}
      {r : FileRecord},
      scanItems rp md l = .ok st → (ps, r) ∈ st →
      ∃ f ∈ l, f.relParts = ps ∧ hiddenHit rp f = false ∧ depthExceeded md f = false := by
  intro l
  induction l with
  | nil =>
    intro st ps r h hm
    simp only [scanItems] at h
    cases h
    simp at hm
  | cons f rest ih =>
    intro st ps r h hm
    simp only [scanItems] at h
    by_cases hh : hiddenHit rp f = true
    · rw [if_pos hh] at h
      obtain ⟨g, hg, hrest⟩ := ih h hm
      exact ⟨g, List.mem_cons_of_mem _ hg, hrest⟩
    · rw [if_neg hh] at h
      by_cases hd : depthExceeded md f = true
      · rw [if_pos hd] at h
        obtain ⟨g, hg, hrest⟩ := ih h hm
        exact ⟨g, List.mem_cons_of_mem _ hg, hrest⟩
      · rw [if_neg hd] at h
        by_cases hv : f.vanished = true
        · rw [if_pos hv] at h
          exact absurd h (by simp)
        · rw [if_neg hv] at h
          cases hrec : scanItems rp md rest with
          | error e => rw [hrec] at h; exact absurd h (by simp)
          | ok st2 =>
            rw [hrec] at h
            cases h
            rcases List.mem_cons.mp hm with hhead | htail
            · have hps : f.relParts = ps := (congrArg Prod.fst hhead).symm
              exact ⟨f, List.mem_cons_self _ _, hps,
                Bool.not_eq_true _ ▸ Bool.of_not_eq_true hh,
                Bool.of_not_eq_true hd⟩
            · obtain ⟨g, hg, hrest⟩ := ih hrec htail
              exact ⟨g, List.mem_cons_of_mem _ hg, hrest⟩

theorem scan_directory_ok_mem {rp : List String} {ex : Bool} {fs : List FSFile}
    {rec : Bool} {md : Option ℕ} {st : List (List String × FileRecord)}
    {ps : List String} {r : FileRecord}
    (h : scan_directory rp ex fs rec md = .ok st) (hm : (ps, r) ∈ st) :
    ∃ f : FSFile, f.relParts = ps ∧ hiddenHit rp f = false ∧ depthExceeded md f = false := by
  cases ex with
  | false =>
    simp only [scan_directory, Bool.false_eq_true, if_neg, ite_false] at h
    cases h
    simp at hm
  | true =>
    simp only [scan_directory, ite_true] at h
    obtain ⟨f, _, hrest⟩ := scanItems_mem_ok h hm
    exact ⟨f, hrest⟩

theorem scanItems_root_hidden {rp : List String} {md : Option ℕ}
    (hr : ∃ c ∈ rp, startsWithDot c = true) :
    ∀ l : List FSFile, scanItems rp md l = .ok [] := by
  intro l
  induction l with
  | nil => rfl
  | cons f rest ih =>
    have hh : hiddenHit rp f = true := by
      obtain ⟨c, hc, hdot⟩ := hr
      simp only [hiddenHit, List.any_eq_true]
      exact ⟨c, List.mem_append_left _ hc, hdot⟩
    simp [scanItems, hh, ih]

theorem scanItems_ok_of_no_vanished {rp : List String} {md : Option ℕ} :
    ∀ {l : List FSFile}, (∀ f ∈ l, f.vanished = false) →
      ∃ st, scanItems rp md l = .ok st := by
  intro l
  induction l with
  | nil => exact fun _ => ⟨[], rfl⟩
  | cons f rest ih =>
    intro hl
    have hv : f.vanished = false := hl f (List.mem_cons_self _ _)
    have hrest : ∀ g ∈ rest, g.vanished = false := fun g hg => hl g (List.mem_cons_of_mem _ hg)
    obtain ⟨st, hst⟩ := ih hrest
    by_cases hh : hiddenHit rp f = true
    · exact ⟨st, by simp [scanItems, hh, hst]⟩
    · by_cases hd : depthExceeded md f = true
      · exact ⟨st, by simp [scanItems, hh, hd, hst]⟩
      · exact ⟨(f.relParts, fsRecord f) :: st, by simp [scanItems, hh, hd, hv, hst]⟩

/-!
## Claim theorems
-/

/-- C1, counterexample to the claim as stated: in `diff_states` the
Modified test is `s1[f] != s2[f]` on the whole record, so a path present in
both snapshots with EQUAL content digests (here, only the mtime differs:
0 vs 1) is still classified Modified — contradicting "Modified exactly when
present in both with differing content digests" and "otherwise counts it as
unchanged without emitting an entry". -/
theorem C1_counterexample :
    "a" ∈ (diff_states ⟨"s1", "t1", "p", [("a", ⟨0, 1, some "h"⟩)]⟩
            ⟨"s2", "t2", "p", [("a", ⟨1, 1, some "h"⟩)]⟩).modified
    ∧ (findRec [("a", (⟨0, 1, some "h"⟩ : FileRecord))] "a").map FileRecord.hash
        = (findRec [("a", (⟨1, 1, some "h"⟩ : FileRecord))] "a").map FileRecord.hash := by
  constructor <;> decide

/-- C1 (amended): for `compare_states` the classification is exactly as the
claim states it, with digest inequality deciding Modified; for `diff_states`
Created and Deleted are as stated, but Modified holds exactly when the two
whole per-file records differ (digest, mtime or size), not the digests
alone. -/
theorem C1_classification :
    (∀ b a : State, ∀ p : String,
        ((Kind.created, p) ∈ compare_states b a ↔ p ∉ keySet b ∧ p ∈ keySet a)
      ∧ ((Kind.deleted, p) ∈ compare_states b a ↔ p ∈ keySet b ∧ p ∉ keySet a)
      ∧ ((Kind.modified, p) ∈ compare_states b a ↔
            p ∈ keySet b ∧ p ∈ keySet a ∧
              (findRec b p).map FileRecord.hash ≠ (findRec a p).map FileRecord.hash)
      ∧ (p ∈ keySet b → p ∈ keySet a →
            (findRec b p).map FileRecord.hash = (findRec a p).map FileRecord.hash →
            ∀ k : Kind, (k, p) ∉ compare_states b a))
    ∧ (∀ d1 d2 : SavedData, ∀ p : String,
        (p ∈ (diff_states d1 d2).created ↔ p ∉ keySet d1.state ∧ p ∈ keySet d2.state)
      ∧ (p ∈ (diff_states d1 d2).deleted ↔ p ∈ keySet d1.state ∧ p ∉ keySet d2.state)
      ∧ (p ∈ (diff_states d1 d2).modified ↔
            p ∈ keySet d1.state ∧ p ∈ keySet d2.state ∧
              findRec d1.state p ≠ findRec d2.state p)) :=
  ⟨fun _ _ _ => ⟨compare_created_iff, compare_deleted_iff, compare_modified_iff,
      compare_unchanged_not_mem⟩,
    fun _ _ _ => ⟨diff_created_mem_iff, diff_deleted_mem_iff, diff_modified_mem_iff⟩⟩

/-- C1, witness: the amended classification applied at a concrete pair of
states — `"b"` is Created, and the digest-unchanged path `"a"` gets no
entry of any kind. -/
theorem C1_classification_witness :
    (Kind.created, "b") ∈ compare_states [("a", (⟨0, 1, some "h"⟩ : FileRecord))]
        [("a", ⟨5, 1, some "h"⟩), ("b", ⟨0, 2, some "g"⟩)]
    ∧ (Kind.modified, "a") ∉ compare_states [("a", (⟨0, 1, some "h"⟩ : FileRecord))]
        [("a", ⟨5, 1, some "h"⟩), ("b", ⟨0, 2, some "g"⟩)] :=
  ⟨(C1_classification.1 [("a", ⟨0, 1, some "h"⟩)]
      [("a", ⟨5, 1, some "h"⟩), ("b", ⟨0, 2, some "g"⟩)] "b").1.mpr (by decide),
    (C1_classification.1 [("a", ⟨0, 1, some "h"⟩)]
      [("a", ⟨5, 1, some "h"⟩), ("b", ⟨0, 2, some "g"⟩)] "a").2.2.2
      (by decide) (by decide) (by decide) Kind.modified⟩

/-- C2: every path of the key union falls in exactly one category.  For
`diff_states`: the unchanged count plus the Modified, Created and Deleted
cardinalities equals the union's size, the three emitted sets are pairwise
disjoint, together with the unchanged set they cover the union, and the
unchanged count is the unchanged set's cardinality.  For `compare_states`:
the number of emitted entries plus the number of unchanged paths equals the
union's size, and no path carries two entries. -/
theorem C2_partition :
    (∀ d1 d2 : SavedData,
        (diff_states d1 d2).unchanged + (diff_states d1 d2).modified.card
            + (diff_states d1 d2).created.card + (diff_states d1 d2).deleted.card
          = (keySet d1.state ∪ keySet d2.state).card
      ∧ Disjoint (diff_states d1 d2).created (diff_states d1 d2).deleted
      ∧ Disjoint (diff_states d1 d2).created (diff_states d1 d2).modified
      ∧ Disjoint (diff_states d1 d2).deleted (diff_states d1 d2).modified
      ∧ (diff_states d1 d2).created ∪ (diff_states d1 d2).deleted
            ∪ (diff_states d1 d2).modified
            ∪ ((keySet d1.state ∩ keySet d2.state) \ (diff_states d1 d2).modified)
          = keySet d1.state ∪ keySet d2.state
      ∧ (diff_states d1 d2).unchanged
          = ((keySet d1.state ∩ keySet d2.state) \ (diff_states d1 d2).modified).card)
    ∧ (∀ b a : State,
        (compare_states b a).length + (unchangedPaths b a).card
            = (keySet b ∪ keySet a).card
      ∧ ((compare_states b a).map Prod.snd).Nodup) :=
  ⟨fun d1 d2 => ⟨diff_states_count d1 d2, diff_states_disjoint_cd d1 d2,
      diff_states_disjoint_cm d1 d2, diff_states_disjoint_dm d1 d2,
      diff_states_cover d1 d2, diff_states_unchanged_card d1 d2⟩,
    fun b a => ⟨compare_states_length b a, compare_states_snds_nodup b a⟩⟩

/-- C3, counterexample to the claim as stated: in `diff_states`, a path
present in both snapshots with equal content digests but different sizes
(1 vs 2) is classified Modified — so the Modified-vs-unchanged decision
does NOT depend only on the digests there. -/
theorem C3_counterexample :
    "a" ∈ (diff_states ⟨"s1", "t1", "p", [("a", ⟨0, 1, some "h"⟩)]⟩
            ⟨"s2", "t2", "p", [("a", ⟨0, 2, some "h"⟩)]⟩).modified
    ∧ (findRec [("a", (⟨0, 1, some "h"⟩ : FileRecord))] "a").map FileRecord.hash
        = (findRec [("a", (⟨0, 2, some "h"⟩ : FileRecord))] "a").map FileRecord.hash := by
  constructor <;> decide

/-- C3 (amended): in `compare_states` digest equality is the sole
criterion — for a path present in both states, the digests are equal iff no
entry of any kind is emitted for it, whatever the mtimes and sizes; in
`diff_states` the criterion is whole-record equality, so mtime or size
differences alone do trigger Modified. -/
theorem C3_digest_only :
    (∀ b a : State, ∀ p : String, ∀ rb ra : FileRecord,
        findRec b p = some rb → findRec a p = some ra →
        (rb.hash = ra.hash ↔ ∀ k : Kind, (k, p) ∉ compare_states b a))
    ∧ (∀ d1 d2 : SavedData, ∀ p : String, ∀ r1 r2 : FileRecord,
        findRec d1.state p = some r1 → findRec d2.state p = some r2 →
        (p ∈ (diff_states d1 d2).modified ↔ r1 ≠ r2)) := by
  constructor
  · intro b a p rb ra hb ha
    have hmb : p ∈ keySet b := mem_keySet_of_findRec hb
    have hma : p ∈ keySet a := mem_keySet_of_findRec ha
    constructor
    · intro heq k
      apply compare_unchanged_not_mem hmb hma
      rw [hb, ha]
      simpa using heq
    · intro hnone
      by_contra hne
      exact hnone Kind.modified
        (compare_modified_iff.mpr ⟨hmb, hma, by rw [hb, ha]; simpa using hne⟩)
  · intro d1 d2 p r1 r2 h1 h2
    rw [diff_modified_mem_iff]
    simp [mem_keySet_of_findRec h1, mem_keySet_of_findRec h2, h1, h2]

/-- C3, witness: the amended digest-only criterion applied at a concrete
pair of states whose records for `"a"` share a digest but differ in both
mtime and size — no Modified entry is emitted by `compare_states`. -/
theorem C3_digest_only_witness :
    (Kind.modified, "a") ∉ compare_states [("a", (⟨0, 5, some "h"⟩ : FileRecord))]
        [("a", (⟨9, 7, some "h"⟩ : FileRecord))] :=
  (C3_digest_only.1 [("a", ⟨0, 5, some "h"⟩)] [("a", ⟨9, 7, some "h"⟩)] "a"
      ⟨0, 5, some "h"⟩ ⟨9, 7, some "h"⟩ (by decide) (by decide)).mp (by decide) Kind.modified

/-- C4: persistence round-trips losslessly.  For the named store of
`diff_witness.py`, loading right after saving returns exactly the JSON
encoding of the saved payload, decoding it recovers every field (paths,
mtimes, sizes, digests including the unreadable sentinel) of the original,
and a diff computed from the reloaded snapshot equals the diff computed
from the snapshot before persistence.  For the single-slot store of
`witness.py`, loading for the same path right after saving returns the
saved payload unchanged. -/
theorem C4_roundtrip :
    (∀ (store : Store) (name : String) (d : SavedData),
        load_state (save_state store name d) name = some (encodeSavedData d)
      ∧ (load_state (save_state store name d) name).bind decodeSavedData = some d
      ∧ ∀ e : SavedData,
          ((load_state (save_state store name d) name).bind decodeSavedData).map
              (fun dd => diff_states dd e) = some (diff_states d e))
    ∧ (∀ (ws : WitnessStore) (path ts : String) (st : State),
        load_previous_scan (save_scan ws path ts st) path = some ⟨path, ts, st⟩) := by
  constructor
  · intro store name d
    have hload : load_state (save_state store name d) name = some (encodeSavedData d) := by
      simp [load_state, save_state]
    refine ⟨hload, ?_, ?_⟩
    · rw [hload]
      simp [decodeSavedData_encodeSavedData]
    · intro e
      rw [hload]
      simp [decodeSavedData_encodeSavedData]
  · intro ws path ts st
    simp [load_previous_scan, save_scan, decodeScanData_encodeScanData]

/-- C5, counterexample to the claim as stated: `diff_states` builds its
`created` list by iterating a Python set (`list(created)`), whose order is
unspecified — the enumeration `["b", "a"]` of the created set
`{"a", "b"}` is an admissible output of the code, and it is not ordered by
relativePath ascending. -/
theorem C5_counterexample :
    DiffListsAdmissible ⟨"s1", "t1", "p", []⟩
        ⟨"s2", "t2", "p", [("b", ⟨0, 1, some "h"⟩), ("a", ⟨0, 1, some "h"⟩)]⟩
        ["b", "a"] [] []
    ∧ ¬ List.Sorted (· ≤ ·) ["b", "a"] := by
  constructor
  · exact ⟨by decide, by decide, by decide, by decide, by decide, by decide⟩
  · intro h
    have hle : ("b" : String) ≤ "a" := (List.pairwise_cons.mp h).1 "a" (by simp)
    have hlt : ("a" : String) < "b" := by
      rw [String.lt_iff_toList_lt]
      have hl : (['a'] : List Char) < ['b'] :=
        List.Lex.rel (show ('a' : Char) < 'b' by decide)
      exact hl
    exact absurd hle (not_le.mpr hlt)

/-- C5 (amended): `compare_states` emits its entries in strictly ascending
`relativePath` order with the kinds interleaved in that single order, so
its output is deterministic; the entry lists of `diff_states`, by contrast,
are kind-grouped and carry no ordering guarantee (they are enumerated from
Python sets; sorting there happens only in the presentation layer). -/
theorem C5_sorted :
    ∀ b a : State, (compare_states b a).Pairwise fun x y => x.2 < y.2 :=
  compare_states_pairwise

/-- C6: no scanned snapshot — recursive or not, with or without a depth
limit — contains an entry whose relative path has a component beginning
with a dot: the hidden test is applied unconditionally to every file. -/
theorem C6_no_hidden_components :
    ∀ (rp : List String) (ex : Bool) (fs : List FSFile) (rec : Bool) (md : Option ℕ)
      (st : List (List String × FileRecord)) (ps : List String) (r : FileRecord)
      (c : String),
      scan_directory rp ex fs rec md = .ok st → (ps, r) ∈ st → c ∈ ps →
      startsWithDot c = false := by
  intro rp ex fs rec md st ps r c h hm hc
  obtain ⟨f, hps, hh, _⟩ := scan_directory_ok_mem h hm
  by_contra hne
  have hsw : startsWithDot c = true := by
    cases hcc : startsWithDot c
    · exact absurd hcc hne
    · rfl
  have : hiddenHit rp f = true := by
    simp only [hiddenHit, List.any_eq_true]
    exact ⟨c, List.mem_append_right _ (hps ▸ hc), hsw⟩
  rw [hh] at this
  exact Bool.noConfusion this

/-- C6, witness: a concrete recursive scan containing one plain file —
its single component is confirmed not to begin with a dot. -/
theorem C6_no_hidden_components_witness : startsWithDot "a.txt" = false :=
  C6_no_hidden_components [] true [⟨["a.txt"], 0, 1, some "h", false⟩] true none
    [(["a.txt"], ⟨0, 1, some "h"⟩)] ["a.txt"] ⟨0, 1, some "h"⟩ "a.txt"
    rfl (by decide) (by decide)

/-- C7: under a recursive scan with `max_depth = d`, every entry of the
snapshot has at most `d` relative path components (the root is depth 0, a
direct child depth 1; files strictly deeper than `d` are excluded). -/
theorem C7_depth_limit :
    ∀ (rp : List String) (ex : Bool) (fs : List FSFile) (d : ℕ)
      (st : List (List String × FileRecord)) (ps : List String) (r : FileRecord),
      scan_directory rp ex fs true (some d) = .ok st → (ps, r) ∈ st →
      ps.length ≤ d := by
  intro rp ex fs d st ps r h hm
  obtain ⟨f, hps, _, hd⟩ := scan_directory_ok_mem h hm
  simp only [depthExceeded, decide_eq_false_iff_not, not_lt] at hd
  exact hps ▸ hd

/-- C7, witness: a depth-1 scan that kept a single-component file — the
theorem bounds its component count by 1. -/
theorem C7_depth_limit_witness : (["a.txt"] : List String).length ≤ 1 :=
  C7_depth_limit [] true [⟨["a.txt"], 0, 1, some "h", false⟩] 1
    [(["a.txt"], ⟨0, 1, some "h"⟩)] ["a.txt"] ⟨0, 1, some "h"⟩ rfl (by decide)

/-- C8, counterexample to the claim as stated: a file that vanishes
between enumeration and `item.stat()` makes the scan raise `OSError`
(the stat on line 180 of `witness.py` is outside any `try`), and
`witness_loop` catches only `KeyboardInterrupt`, so that error terminates
the loop instead of being reported and polling continuing. -/
theorem C8_counterexample :
    scan_directory [] true [⟨["a.txt"], 0, 1, some "h", true⟩] true none
        = .error .osError
    ∧ witness_loop_tick (scan_directory [] true [⟨["a.txt"], 0, 1, some "h", true⟩]
        true none) = .crashed :=
  ⟨rfl, rfl⟩

/-- C8 (amended): a successful scan advances the loop; a
`KeyboardInterrupt` (the stop request) is caught and ends the loop cleanly;
any other exception raised by a scan propagates and terminates the loop —
there is no per-tick recovery.  Per-file read failures, however, do not
abort a scan: when no enumerated file vanishes mid-scan, the scan succeeds
(unreadable files are absorbed as a `None` digest by `hash_file`). -/
theorem C8_loop_termination :
    (∀ st : List (List String × FileRecord),
        witness_loop_tick (.ok st) = .continuePolling st)
    ∧ witness_loop_tick (.error .keyboardInterrupt) = .cleanExit
    ∧ witness_loop_tick (.error .osError) = .crashed
    ∧ (∀ (rp : List String) (fs : List FSFile) (rec : Bool) (md : Option ℕ),
        (∀ f ∈ fs, f.vanished = false) →
        ∃ st, scan_directory rp true fs rec md = .ok st) := by
  refine ⟨fun st => rfl, rfl, rfl, ?_⟩
  intro rp fs rec md hfs
  simp only [scan_directory, ite_true]
  apply scanItems_ok_of_no_vanished
  intro f hf
  apply hfs
  cases rec with
  | true => simpa [enumItems] using hf
  | false =>
    simp only [enumItems, Bool.false_eq_true, ite_false] at hf
    exact List.mem_of_mem_filter hf

/-- C8, witness: the amended loop behavior applied at a concrete scan with
one unreadable (but not vanishing) file — the scan completes. -/
theorem C8_loop_termination_witness :
    ∃ st, scan_directory ["root"] true [⟨["a.txt"], 0, 1, none, false⟩] true none
        = .ok st :=
  C8_loop_termination.2.2.2 ["root"] [⟨["a.txt"], 0, 1, none, false⟩] true none
    (by decide)

/-- C9, counterexample to the claim as stated: `witness.py` keeps ALL
previous scans in the single global file `WITNESS_STATE_FILE`; after a scan
for root `"A"` is saved, saving a scan for a different root `"B"`
overwrites that one slot, and a subsequent load for `"A"` returns nothing
instead of the snapshot it returned before. -/
theorem C9_counterexample :
    load_previous_scan (save_scan (save_scan none "A" "t0" []) "B" "t1" []) "A" = none
    ∧ load_previous_scan (save_scan none "A" "t0" []) "A" = some ⟨"A", "t0", []⟩
    ∧ load_previous_scan (save_scan (save_scan none "A" "t0" []) "B" "t1" []) "A"
        ≠ load_previous_scan (save_scan none "A" "t0" []) "A" :=
  ⟨rfl, rfl, by decide⟩

/-- C9 (amended): in the named store of `diff_witness.py`, each name owns
an independent file — saving under one name leaves every other name's load
result unchanged.  The path-keyed previous-scan store of `witness.py` has
no such isolation: it is one global slot shared by all paths. -/
theorem C9_named_slots :
    ∀ (store : Store) (nameA nameB : String) (d : SavedData), nameA ≠ nameB →
      load_state (save_state store nameB d) nameA = load_state store nameA := by
  intro store nameA nameB d hne
  simp [load_state, save_state, hne]

/-- C9, witness: saving under `"b"` does not disturb the (empty) slot of
`"a"` in a concrete store. -/
theorem C9_named_slots_witness :
    load_state (save_state (fun _ => none) "b" ⟨"b", "t", "p", []⟩) "a"
      = load_state (fun _ => none) "a" :=
  C9_named_slots (fun _ => none) "a" "b" ⟨"b", "t", "p", []⟩ (by decide)

/-- C10: because the hidden test inspects every component of the FULL path
(`item.parts`), a scan whose root path itself contains a dot-prefixed
component returns an empty snapshot, no matter what readable, non-hidden
files the root contains, recursively or not, with or without a depth
limit. -/
theorem C10_hidden_root :
    ∀ (rp : List String) (ex : Bool) (fs : List FSFile) (rec : Bool) (md : Option ℕ),
      (∃ c ∈ rp, startsWithDot c = true) →
      scan_directory rp ex fs rec md = .ok [] := by
  intro rp ex fs rec md hr
  cases ex with
  | false => rfl
  | true =>
    simp only [scan_directory, ite_true]
    exact scanItems_root_hidden hr _

/-- C10, witness: scanning a root inside a `.config` tree that contains one
perfectly readable plain file still yields an empty snapshot. -/
theorem C10_hidden_root_witness :
    scan_directory [".config", "app"] true [⟨["data.txt"], 0, 4, some "abc12345", false⟩]
        true none = .ok [] :=
  C10_hidden_root [".config", "app"] true [⟨["data.txt"], 0, 4, some "abc12345", false⟩]
    true none (by decide)

end Witness
